import Mathlib

/-!
Verification of the serde serialization core (`serde/src/ser/impls.rs` and
`serde_codegen/src/ser.rs`) against its natural-language specification.

The value side (the `Serialize` impls of `impls.rs` and the visitors that
`serde_codegen/src/ser.rs` generates) is embedded from the source.  The
`Serializer` trait itself and any concrete encoder are not part of the given
sources (`ser/mod.rs` is absent), so the encoder is modelled from the spec as
an instrumented event sink: every entry-point invocation records one `Call`
event in a trace, and an arbitrary failure plan decides, from the history and
the current call, whether that call fails with an encoder error.  Structural
entry points (`visit_seq`, `visit_map`, ...) pull their visitor to exhaustion
or stop at the first failure, as section 4.2 of the spec requires of every
encoder.
-/

namespace Serde

/-- One `Serializer` entry-point invocation, together with the immediate
arguments the value side passes to it.  Nested values do not appear inside a
`Call`; their own entry points follow in the trace.  Integer arguments are
carried as `Int`/`Nat` (the code only moves them, it never computes with
them); `f32`/`f64` arguments are carried as their raw bit patterns. -/
inductive Call where
  | cbool (b : Bool)
  | cisize (n : Int)
  | ci8 (n : Int)
  | ci16 (n : Int)
  | ci32 (n : Int)
  | ci64 (n : Int)
  | cusize (n : Nat)
  | cu8 (n : Nat)
  | cu16 (n : Nat)
  | cu32 (n : Nat)
  | cu64 (n : Nat)
  | cf32 (bits : Nat)
  | cf64 (bits : Nat)
  | cchar (c : Char)
  | cstr (s : String)
  | cnone
  | csome
  | cunit
  | cseq (lenHint : Option Nat)
  | cseqElt
  | ctuple (lenHint : Option Nat)
  | ctupleElt
  | cmap (lenHint : Option Nat)
  | cmapElt
  | cnamedUnit (typeName : String)
  | cnamedSeq (typeName : String) (lenHint : Option Nat)
  | cnamedMap (typeName : String) (lenHint : Option Nat)
  | cnamedMapElt (key : String)
  | cenumUnit (typeName : String) (variantIndex : Nat) (variantName : String)
  | cenumSeq (typeName : String) (variantIndex : Nat) (variantName : String) (lenHint : Option Nat)
  | cenumMap (typeName : String) (variantIndex : Nat) (variantName : String) (lenHint : Option Nat)
  deriving DecidableEq, Repr

/-- Failure of a `serialize` call: either an error the encoder returned
(propagated through `try!`), or a Rust panic (reachable only through the
`unwrap()` in the `path::Path` / `path::PathBuf` impls). -/
inductive Fail (ε : Type) where
  | enc (e : ε)
  | panicked
  deriving DecidableEq, Repr

deriving instance DecidableEq for Except

/-- Modelled from the spec: a deterministic encoder behaviour.  Given the
calls made so far and the call being made, the plan either accepts the call
(`none`) or makes it fail with an encoder error (`some e`).  Quantifying over
all plans covers every way an encoder can inject a failure at any single call
site. -/
def Plan (ε : Type) : Type := List Call → Call → Option ε

/-- The benign plan: an encoder that accepts every call. -/
def planOk {ε : Type} : Plan ε := fun _ _ => none

/-- Result of one fallible step against the instrumented encoder, together
with the updated trace.  The trace is returned on the error path as well,
mirroring that a Rust `&mut S` encoder keeps the calls made before (and
including) a failing one. -/
abbrev Step (ε α : Type) : Type := Except (Fail ε) α × List Call

/-- Modelled from the spec: invoking one encoder entry point.  The call is
recorded in the trace; the plan decides whether it succeeds or returns the
encoder's failure. -/
def emit {ε : Type} (plan : Plan ε) (c : Call) (t : List Call) : Step ε Unit :=
  match plan t c with
  | some e => (.error (.enc e), t ++ [c])
  | none => (.ok (), t ++ [c])

/-- The `try!` macro: propagate a failure of the first step unchanged and
stop; continue with the rest of the body only on success. -/
def tryStep {ε : Type} (r : Step ε Unit) (k : List Call → Step ε Unit) : Step ε Unit :=
  match r with
  | (.error f, t1) => (.error f, t1)
  | (.ok _, t1) => k t1

/-- A Rust value of one of the types given a `Serialize` impl in
`serde/src/ser/impls.rs`, or of a struct/enum type whose impl
`serde_codegen/src/ser.rs` generates.

Containers carry the list their iterator yields, in iteration order.  For
`BTreeSet`/`BTreeMap` the key type is fixed to a representative ordered
serializable key (`i64`, carried as `Int`); the standard library guarantees
their iterators yield keys in strictly ascending order, so a valid tree value
corresponds exactly to a strictly sorted key list.  `varray n l` is a value
of type `[T; n]`, so `l.length = n` is its type invariant.  A path value
carries the result of `OsStr::to_str`: `some s` when its bytes are valid
UTF-8 (decoding to `s`), `none` otherwise. -/
inductive RValue where
  | vbool (b : Bool)
  | visize (n : Int)
  | vi8 (n : Int)
  | vi16 (n : Int)
  | vi32 (n : Int)
  | vi64 (n : Int)
  | vusize (n : Nat)
  | vu8 (n : Nat)
  | vu16 (n : Nat)
  | vu32 (n : Nat)
  | vu64 (n : Nat)
  | vf32 (bits : Nat)
  | vf64 (bits : Nat)
  | vchar (c : Char)
  | vstr (s : String)
  | vstring (s : String)
  | voption (o : Option RValue)
  | vslice (l : List RValue)
  | varray (n : Nat) (l : List RValue)
  | vvec (l : List RValue)
  | vbtreeSet (keys : List Int)
  | vhashSet (l : List RValue)
  | vunit
  | vtuple (l : List RValue)
  | vbtreeMap (entries : List (Int × RValue))
  | vhashMap (entries : List (RValue × RValue))
  | vrefShared (v : RValue)
  | vrefMut (v : RValue)
  | vbox (v : RValue)
  | vrc (v : RValue)
  | varc (v : RValue)
  | vpath (toStr : Option String)
  | vpathBuf (toStr : Option String)
  | vstructUnit (typeName : String)
  | vstructTuple (typeName : String) (fields : List RValue)
  | vstructMap (typeName : String) (fields : List (String × RValue))
  | venumUnit (typeName : String) (variantIndex : Nat) (variantName : String)
  | venumSeq (typeName : String) (variantIndex : Nat) (variantName : String) (payload : List RValue)
  | venumMap (typeName : String) (variantIndex : Nat) (variantName : String) (fields : List (String × RValue))

mutual

/-- `Serialize::serialize` for every impl of `impls.rs` and for the code
`serde_codegen/src/ser.rs` generates, run against the instrumented encoder.
Each arm mirrors one impl; the structural arms record the entry-point call
(including the length hint the visitor reports) and then run the encoder's
spec-modelled driving loop over the visitor the impl constructs. -/
def serialize {ε : Type} (plan : Plan ε) : RValue → List Call → Step ε Unit
  | .vbool b, t => emit plan (.cbool b) t
  | .visize n, t => emit plan (.cisize n) t
  | .vi8 n, t => emit plan (.ci8 n) t
  | .vi16 n, t => emit plan (.ci16 n) t
  | .vi32 n, t => emit plan (.ci32 n) t
  | .vi64 n, t => emit plan (.ci64 n) t
  | .vusize n, t => emit plan (.cusize n) t
  | .vu8 n, t => emit plan (.cu8 n) t
  | .vu16 n, t => emit plan (.cu16 n) t
  | .vu32 n, t => emit plan (.cu32 n) t
  | .vu64 n, t => emit plan (.cu64 n) t
  | .vf32 bits, t => emit plan (.cf32 bits) t
  | .vf64 bits, t => emit plan (.cf64 bits) t
  | .vchar c, t => emit plan (.cchar c) t
  | .vstr s, t => emit plan (.cstr s) t
  | .vstring s, t => emit plan (.cstr s) t
  | .voption (some v), t => tryStep (emit plan .csome t) (fun t1 => serialize plan v t1)
  | .voption none, t => emit plan .cnone t
  | .vslice l, t =>
    tryStep (emit plan (.cseq (some l.length)) t) (fun t1 => serSeqElts plan l t1)
  | .varray n l, t =>
    tryStep (emit plan (.cseq (some n)) t) (fun t1 => serSeqElts plan l t1)
  | .vvec l, t =>
    tryStep (emit plan (.cseq (some l.length)) t) (fun t1 => serSeqElts plan l t1)
  | .vbtreeSet keys, t =>
    tryStep (emit plan (.cseq (some keys.length)) t) (fun t1 => serKeySeqElts plan keys t1)
  | .vhashSet l, t =>
    tryStep (emit plan (.cseq (some l.length)) t) (fun t1 => serSeqElts plan l t1)
  | .vunit, t => emit plan .cunit t
  | .vtuple l, t =>
    tryStep (emit plan (.ctuple (some l.length)) t) (fun t1 => serSeqElts plan l t1)
  | .vbtreeMap entries, t =>
    tryStep (emit plan (.cmap (some entries.length)) t) (fun t1 => serKeyMapElts plan entries t1)
  | .vhashMap entries, t =>
    tryStep (emit plan (.cmap (some entries.length)) t) (fun t1 => serMapElts plan entries t1)
  | .vrefShared v, t => serialize plan v t
  | .vrefMut v, t => serialize plan v t
  | .vbox v, t => serialize plan v t
  | .vrc v, t => serialize plan v t
  | .varc v, t => serialize plan v t
  | .vpath toStr, t =>
    match toStr with
    | some s => emit plan (.cstr s) t
    | none => (.error .panicked, t)
  | .vpathBuf toStr, t =>
    match toStr with
    | some s => emit plan (.cstr s) t
    | none => (.error .panicked, t)
  | .vstructUnit typeName, t => emit plan (.cnamedUnit typeName) t
  | .vstructTuple typeName fields, t =>
    tryStep (emit plan (.cnamedSeq typeName (some fields.length)) t)
      (fun t1 => serGenTupleElts plan fields t1)
  | .vstructMap typeName fields, t =>
    tryStep (emit plan (.cnamedMap typeName (some fields.length)) t)
      (fun t1 => serGenMapElts plan fields t1)
  | .venumUnit typeName idx variantName, t =>
    emit plan (.cenumUnit typeName idx variantName) t
  | .venumSeq typeName idx variantName payload, t =>
    tryStep (emit plan (.cenumSeq typeName idx variantName (some payload.length)) t)
      (fun t1 => serGenTupleElts plan payload t1)
  | .venumMap typeName idx variantName fields, t =>
    tryStep (emit plan (.cenumMap typeName idx variantName (some fields.length)) t)
      (fun t1 => serGenMapElts plan fields t1)

/-- Modelled from the spec: the encoder pulling a `SeqIteratorVisitor` (or a
`TupleVisitor`, which makes the same `visit_seq_elt` call per slot) to
exhaustion.  Each element costs one `visit_seq_elt` call, which serializes
the element; the first failure stops the loop. -/
def serSeqElts {ε : Type} (plan : Plan ε) : List RValue → List Call → Step ε Unit
  | [], t => (.ok (), t)
  | v :: rest, t =>
    tryStep (emit plan .cseqElt t) (fun t1 =>
      tryStep (serialize plan v t1) (fun t2 => serSeqElts plan rest t2))

/-- Modelled from the spec: the `serSeqElts` loop specialised to `BTreeSet`
iteration, whose elements are the `i64` keys themselves (serializing an `i64`
key is exactly one `visit_i64` call). -/
def serKeySeqElts {ε : Type} (plan : Plan ε) : List Int → List Call → Step ε Unit
  | [], t => (.ok (), t)
  | k :: rest, t =>
    tryStep (emit plan .cseqElt t) (fun t1 =>
      tryStep (emit plan (.ci64 k) t1) (fun t2 => serKeySeqElts plan rest t2))

/-- Modelled from the spec: the encoder pulling a `MapIteratorVisitor` to
exhaustion.  Each pair costs one `visit_map_elt` call, which serializes the
key and then the value; the first failure stops the loop. -/
def serMapElts {ε : Type} (plan : Plan ε) : List (RValue × RValue) → List Call → Step ε Unit
  | [], t => (.ok (), t)
  | (k, v) :: rest, t =>
    tryStep (emit plan .cmapElt t) (fun t1 =>
      tryStep (serialize plan k t1) (fun t2 =>
        tryStep (serialize plan v t2) (fun t3 => serMapElts plan rest t3)))

/-- Modelled from the spec: the `serMapElts` loop specialised to `BTreeMap`
iteration with `i64` keys (serializing a key is one `visit_i64` call). -/
def serKeyMapElts {ε : Type} (plan : Plan ε) : List (Int × RValue) → List Call → Step ε Unit
  | [], t => (.ok (), t)
  | (k, v) :: rest, t =>
    tryStep (emit plan .cmapElt t) (fun t1 =>
      tryStep (emit plan (.ci64 k) t1) (fun t2 =>
        tryStep (serialize plan v t2) (fun t3 => serKeyMapElts plan rest t3)))

/-- Modelled from the spec: the encoder pulling a generated tuple-struct /
tuple-variant visitor (`serialize_tuple_struct_visitor`) to exhaustion.  Each
field costs one `visit_tuple_elt` call, which serializes the field. -/
def serGenTupleElts {ε : Type} (plan : Plan ε) : List RValue → List Call → Step ε Unit
  | [], t => (.ok (), t)
  | v :: rest, t =>
    tryStep (emit plan .ctupleElt t) (fun t1 =>
      tryStep (serialize plan v t1) (fun t2 => serGenTupleElts plan rest t2))

/-- Modelled from the spec: the encoder pulling a generated struct /
struct-variant visitor (`serialize_struct_visitor`) to exhaustion.  Each
field costs one `visit_named_map_elt` call carrying the field name, which
serializes the field value. -/
def serGenMapElts {ε : Type} (plan : Plan ε) : List (String × RValue) → List Call → Step ε Unit
  | [], t => (.ok (), t)
  | (name, v) :: rest, t =>
    tryStep (emit plan (.cnamedMapElt name) t) (fun t1 =>
      tryStep (serialize plan v t1) (fun t2 => serGenMapElts plan rest t2))

end

mutual

/-- A value contains a panic source exactly when some nested `Path` /
`PathBuf` value is not valid UTF-8 (its `to_str()` is `None`), making the
`unwrap()` in its `Serialize` impl panic. -/
def hasBadPath : RValue → Bool
  | .voption (some v) => hasBadPath v
  | .vslice l => hasBadPathList l
  | .varray _ l => hasBadPathList l
  | .vvec l => hasBadPathList l
  | .vhashSet l => hasBadPathList l
  | .vtuple l => hasBadPathList l
  | .vbtreeMap entries => hasBadPathKeyList entries
  | .vhashMap entries => hasBadPathPairList entries
  | .vrefShared v => hasBadPath v
  | .vrefMut v => hasBadPath v
  | .vbox v => hasBadPath v
  | .vrc v => hasBadPath v
  | .varc v => hasBadPath v
  | .vpath none => true
  | .vpathBuf none => true
  | .vstructTuple _ fields => hasBadPathList fields
  | .vstructMap _ fields => hasBadPathNamedList fields
  | .venumSeq _ _ _ payload => hasBadPathList payload
  | .venumMap _ _ _ fields => hasBadPathNamedList fields
  | _ => false

def hasBadPathList : List RValue → Bool
  | [] => false
  | v :: rest => hasBadPath v || hasBadPathList rest

def hasBadPathPairList : List (RValue × RValue) → Bool
  | [] => false
  | (k, v) :: rest => hasBadPath k || hasBadPath v || hasBadPathPairList rest

def hasBadPathKeyList : List (Int × RValue) → Bool
  | [] => false
  | (_, v) :: rest => hasBadPath v || hasBadPathKeyList rest

def hasBadPathNamedList : List (String × RValue) → Bool
  | [] => false
  | (_, v) :: rest => hasBadPath v || hasBadPathNamedList rest

end

/-! The visitor objects themselves, embedded from the source.  Their `visit`
methods take the encoder (here: the plan and the trace) and return the Rust
`Result` of `Option` of unit together with the updated visitor state and
trace; the iterator (`next()` having consumed an element) respectively the
position counter advances even when the nested encoder call fails. -/

/-- Modelled from the spec: the encoder entry point `visit_seq_elt`, which
records the element event and then serializes the element. -/
def visit_seq_elt {ε : Type} (plan : Plan ε) (value : RValue) (t : List Call) : Step ε Unit :=
  tryStep (emit plan .cseqElt t) (fun t1 => serialize plan value t1)

/-- Modelled from the spec: the encoder entry point `visit_map_elt`, which
records the pair event and then serializes the key and the value. -/
def visit_map_elt {ε : Type} (plan : Plan ε) (key value : RValue) (t : List Call) : Step ε Unit :=
  tryStep (emit plan .cmapElt t) (fun t1 =>
    tryStep (serialize plan key t1) (fun t2 => serialize plan value t2))

/-- Modelled from the spec: the encoder entry point `visit_tuple_elt`. -/
def visit_tuple_elt {ε : Type} (plan : Plan ε) (value : RValue) (t : List Call) : Step ε Unit :=
  tryStep (emit plan .ctupleElt t) (fun t1 => serialize plan value t1)

/-- Modelled from the spec: the encoder entry point `visit_named_map_elt`,
which records the field-name event and then serializes the field value. -/
def visit_named_map_elt {ε : Type} (plan : Plan ε) (key : String) (value : RValue)
    (t : List Call) : Step ε Unit :=
  tryStep (emit plan (.cnamedMapElt key) t) (fun t1 => serialize plan value t1)

/-- `SeqIteratorVisitor` (impls.rs lines 80-118): an iterator (modelled as
the list of elements it has yet to yield) plus the optional length captured
at construction. -/
structure SeqIteratorVisitor where
  iter : List RValue
  len : Option Nat

/-- `SeqVisitor::visit` for `SeqIteratorVisitor`: `self.iter.next()`, and on
`Some(value)` one `visit_seq_elt` call through `try!`. -/
def SeqIteratorVisitor.visit {ε : Type} (plan : Plan ε) (v : SeqIteratorVisitor)
    (t : List Call) : Except (Fail ε) (Option Unit) × SeqIteratorVisitor × List Call :=
  match v.iter with
  | value :: rest =>
    match visit_seq_elt plan value t with
    | (.error f, t1) => (.error f, ⟨rest, v.len⟩, t1)
    | (.ok _, t1) => (.ok (some ()), ⟨rest, v.len⟩, t1)
  | [] => (.ok none, v, t)

/-- `SeqVisitor::len` for `SeqIteratorVisitor`: returns the stored field. -/
def SeqIteratorVisitor.lenHint (v : SeqIteratorVisitor) : Option Nat := v.len

/-- `MapIteratorVisitor` (impls.rs lines 393-432). -/
structure MapIteratorVisitor where
  iter : List (RValue × RValue)
  len : Option Nat

/-- `MapVisitor::visit` for `MapIteratorVisitor`: `self.iter.next()`, and on
`Some((key, value))` one `visit_map_elt` call through `try!`. -/
def MapIteratorVisitor.visit {ε : Type} (plan : Plan ε) (v : MapIteratorVisitor)
    (t : List Call) : Except (Fail ε) (Option Unit) × MapIteratorVisitor × List Call :=
  match v.iter with
  | (key, value) :: rest =>
    match visit_map_elt plan key value t with
    | (.error f, t1) => (.error f, ⟨rest, v.len⟩, t1)
    | (.ok _, t1) => (.ok (some ()), ⟨rest, v.len⟩, t1)
  | [] => (.ok none, v, t)

/-- `MapVisitor::len` for `MapIteratorVisitor`: returns the stored field. -/
def MapIteratorVisitor.lenHint (v : MapIteratorVisitor) : Option Nat := v.len

/-- The `TupleVisitor1` .. `TupleVisitor12` family (impls.rs lines 229-389):
a borrowed tuple (its slots as a list, the arity being the list length) and
the `state` position counter starting at 0. -/
structure TupleVisitor where
  tuple : List RValue
  state : Nat

/-- `SeqVisitor::visit` for the tuple family: if `state` matches a slot
index, increment it and make one `visit_seq_elt` call on that slot; any
other state answers `Ok(None)`. -/
def TupleVisitor.visit {ε : Type} (plan : Plan ε) (v : TupleVisitor)
    (t : List Call) : Except (Fail ε) (Option Unit) × TupleVisitor × List Call :=
  match v.tuple[v.state]? with
  | some slot =>
    match visit_seq_elt plan slot t with
    | (.error f, t1) => (.error f, ⟨v.tuple, v.state + 1⟩, t1)
    | (.ok _, t1) => (.ok (some ()), ⟨v.tuple, v.state + 1⟩, t1)
  | none => (.ok none, v, t)

/-- `SeqVisitor::len` for the tuple family: `Some(arity)`, a constant. -/
def TupleVisitor.lenHint (v : TupleVisitor) : Option Nat := some v.tuple.length

/-- The generated tuple-struct / tuple-variant `Visitor`
(`serialize_tuple_struct_visitor`, ser.rs lines 470-542): the borrowed field
values and the `state` counter. -/
structure GenTupleVisitor where
  value : List RValue
  state : Nat

/-- Generated `SeqVisitor::visit`: arm `i` (one per field) increments
`state` and makes one `visit_tuple_elt` call; the default arm answers
`Ok(None)`. -/
def GenTupleVisitor.visit {ε : Type} (plan : Plan ε) (v : GenTupleVisitor)
    (t : List Call) : Except (Fail ε) (Option Unit) × GenTupleVisitor × List Call :=
  match v.value[v.state]? with
  | some field =>
    match visit_tuple_elt plan field t with
    | (.error f, t1) => (.error f, ⟨v.value, v.state + 1⟩, t1)
    | (.ok _, t1) => (.ok (some ()), ⟨v.value, v.state + 1⟩, t1)
  | none => (.ok none, v, t)

/-- Generated `SeqVisitor::len`: `Some(field count)`, a constant. -/
def GenTupleVisitor.lenHint (v : GenTupleVisitor) : Option Nat := some v.value.length

/-- The generated struct / struct-variant `Visitor`
(`serialize_struct_visitor`, ser.rs lines 544-631): the borrowed
(field-name, field-value) pairs in declaration order and the `state`
counter. -/
structure GenMapVisitor where
  value : List (String × RValue)
  state : Nat

/-- Generated `MapVisitor::visit`: arm `i` (one per field) increments
`state` and makes one `visit_named_map_elt` call with that field's key
expression and value; the default arm answers `Ok(None)`. -/
def GenMapVisitor.visit {ε : Type} (plan : Plan ε) (v : GenMapVisitor)
    (t : List Call) : Except (Fail ε) (Option Unit) × GenMapVisitor × List Call :=
  match v.value[v.state]? with
  | some field =>
    match visit_named_map_elt plan field.1 field.2 t with
    | (.error f, t1) => (.error f, ⟨v.value, v.state + 1⟩, t1)
    | (.ok _, t1) => (.ok (some ()), ⟨v.value, v.state + 1⟩, t1)
  | none => (.ok none, v, t)

/-- Generated `MapVisitor::len`: `Some(field count)`, a constant. -/
def GenMapVisitor.lenHint (v : GenMapVisitor) : Option Nat := some v.value.length

/-- Repeatedly pull a `SeqIteratorVisitor` a given number of times,
collecting the answer of every pull. -/
def iterateSeqVisit {ε : Type} (plan : Plan ε) :
    Nat → SeqIteratorVisitor → List Call →
      List (Except (Fail ε) (Option Unit)) × SeqIteratorVisitor × List Call
  | 0, v, t => ([], v, t)
  | n + 1, v, t =>
    match SeqIteratorVisitor.visit plan v t with
    | (r, v2, t2) =>
      match iterateSeqVisit plan n v2 t2 with
      | (rs, v3, t3) => (r :: rs, v3, t3)

/-- The visitor `[T]::serialize` constructs: `SeqIteratorVisitor::new(self.iter(), Some(self.len()))`. -/
def sliceVisitor (l : List RValue) : SeqIteratorVisitor := ⟨l, some l.length⟩

/-- The visitor `Vec<T>::serialize` constructs (it delegates to the slice impl). -/
def vecVisitor (l : List RValue) : SeqIteratorVisitor := sliceVisitor l

/-- The visitor `[T; N]::serialize` constructs: the length hint is the
compile-time array length `N` from the macro literal. -/
def arrayVisitor (n : Nat) (l : List RValue) : SeqIteratorVisitor := ⟨l, some n⟩

/-- The visitor `BTreeSet<i64>::serialize` constructs: the iterator yields
the keys (in ascending order) and the hint is `Some(self.len())`. -/
def btreeSetVisitor (keys : List Int) : SeqIteratorVisitor :=
  ⟨keys.map RValue.vi64, some keys.length⟩

/-- The visitor `HashSet<T>::serialize` constructs. -/
def hashSetVisitor (l : List RValue) : SeqIteratorVisitor := ⟨l, some l.length⟩

/-- The single primitive encoder event a primitive `Serialize` impl makes:
`some` exactly for the scalar and string impls, carrying the value. -/
def primCall : RValue → Option Call
  | .vbool b => some (.cbool b)
  | .visize n => some (.cisize n)
  | .vi8 n => some (.ci8 n)
  | .vi16 n => some (.ci16 n)
  | .vi32 n => some (.ci32 n)
  | .vi64 n => some (.ci64 n)
  | .vusize n => some (.cusize n)
  | .vu8 n => some (.cu8 n)
  | .vu16 n => some (.cu16 n)
  | .vu32 n => some (.cu32 n)
  | .vu64 n => some (.cu64 n)
  | .vf32 bits => some (.cf32 bits)
  | .vf64 bits => some (.cf64 bits)
  | .vchar c => some (.cchar c)
  | .vstr s => some (.cstr s)
  | .vstring s => some (.cstr s)
  | _ => none

/-! The code-generation layer (`serde_codegen/src/ser.rs`): the shape
dispatch for structs and the variant dispatch for enums. -/

/-- One field of a struct declaration. -/
inductive FieldDecl where
  | named (name : String)
  | unnamed

/-- The serialize body `serialize_item_struct` chooses for a struct
declaration. -/
inductive StructCode where
  | unitStruct
  | tupleStruct (fields : Nat)
  | mapStruct (fields : List String)

/-- The `named_fields` vector the loop of `serialize_item_struct` collects:
the named-field idents, in declaration order. -/
def namedFieldNames (fields : List FieldDecl) : List String :=
  fields.filterMap fun f =>
    match f with
    | .named name => some name
    | .unnamed => none

/-- The `unnamed_fields` counter the loop of `serialize_item_struct`
accumulates. -/
def unnamedFieldCount (fields : List FieldDecl) : Nat :=
  (fields.filter fun f =>
    match f with
    | .named _ => false
    | .unnamed => true).length

/-- `serialize_item_struct` (ser.rs lines 112-163): collect the named-field
idents and the count of unnamed fields, then dispatch on
`(named_fields.is_empty(), unnamed_fields == 0)`; a struct having both kinds
of fields is the construction-time `cx.bug` failure, modelled as
`Except.error` with the source's message. -/
def serialize_item_struct (fields : List FieldDecl) : Except String StructCode :=
  match (namedFieldNames fields).isEmpty, unnamedFieldCount fields == 0 with
  | true, true => .ok .unitStruct
  | true, false => .ok (.tupleStruct (unnamedFieldCount fields))
  | false, true => .ok (.mapStruct (namedFieldNames fields))
  | false, false => .error "struct has named and unnamed fields"

/-- The declaration has at least one named field. -/
def hasNamedField (fields : List FieldDecl) : Bool :=
  fields.any fun f =>
    match f with
    | .named _ => true
    | .unnamed => false

/-- The declaration has at least one unnamed field. -/
def hasUnnamedField (fields : List FieldDecl) : Bool :=
  fields.any fun f =>
    match f with
    | .named _ => false
    | .unnamed => true

/-- The serialize body generated for each struct shape
(`serialize_unit_struct` / `serialize_tuple_struct` / `serialize_struct`),
applied to the runtime field values. -/
def genStructSerialize {ε : Type} (plan : Plan ε) (typeName : String) :
    StructCode → List RValue → List Call → Step ε Unit
  | .unitStruct, _, t => emit plan (.cnamedUnit typeName) t
  | .tupleStruct n, vals, t =>
    tryStep (emit plan (.cnamedSeq typeName (some n)) t)
      (fun t1 => serGenTupleElts plan vals t1)
  | .mapStruct names, vals, t =>
    tryStep (emit plan (.cnamedMap typeName (some names.length)) t)
      (fun t1 => serGenMapElts plan (names.zip vals) t1)

/-- The payload shape a variant declares: payload-less (an empty
`TupleVariantKind`), positional payload of a given arity, or named payload
fields. -/
inductive VariantKind where
  | unitKind
  | tupleKind (arity : Nat)
  | structKind (fieldNames : List String)

/-- One variant of an enum declaration. -/
structure VariantDecl where
  name : String
  kind : VariantKind

/-- The runtime payload of an enum value. -/
inductive EnumPayload where
  | unitPayload
  | tuplePayload (vals : List RValue)
  | structPayload (vals : List RValue)

/-- `serialize_variant` (ser.rs lines 267-359): the match arm generated for
one variant, run on a value of that variant.  A payload-less variant makes
one `visit_enum_unit` call; a positional-payload variant makes a
`visit_enum_seq` call (hint: the declared arity) and drives the generated
tuple visitor; a named-payload variant makes a `visit_enum_map` call (hint:
the declared field count) and drives the generated map visitor.  Every call
carries the type name, the `variant_index` handed to `serialize_variant`,
and the variant name.  A payload whose shape mismatches the declaration
cannot occur at runtime (the pattern of the arm matched it); the model maps
it to a panic. -/
def runVariantArm {ε : Type} (plan : Plan ε) (typeName : String) (variantIndex : Nat)
    (decl : VariantDecl) (payload : EnumPayload) (t : List Call) : Step ε Unit :=
  match decl.kind, payload with
  | .unitKind, .unitPayload => emit plan (.cenumUnit typeName variantIndex decl.name) t
  | .tupleKind arity, .tuplePayload vals =>
    tryStep (emit plan (.cenumSeq typeName variantIndex decl.name (some arity)) t)
      (fun t1 => serGenTupleElts plan vals t1)
  | .structKind names, .structPayload vals =>
    tryStep (emit plan (.cenumMap typeName variantIndex decl.name (some names.length)) t)
      (fun t1 => serGenMapElts plan (names.zip vals) t1)
  | _, _ => (.error .panicked, t)

/-- `serialize_item_enum` (ser.rs lines 237-265): the generated
`match *self` whose arms come from `variants.iter().enumerate()`, each arm
built by `serialize_variant` with its enumeration index.  Running the
generated body on a value of runtime variant `j` selects arm `j`.  An index
past the declaration is unreachable (the match is exhaustive); the model
maps it to a panic. -/
def runEnumSerialize {ε : Type} (plan : Plan ε) (typeName : String)
    (variants : List VariantDecl) (j : Nat) (payload : EnumPayload)
    (t : List Call) : Step ε Unit :=
  match (variants.enum)[j]? with
  | some arm => runVariantArm plan typeName arm.1 arm.2 payload t
  | none => (.error .panicked, t)

/-- The entry-point call a variant's generated arm makes first, as a
function of the declaration. -/
def enumHeadCall (typeName : String) (variantIndex : Nat) (decl : VariantDecl) : Call :=
  match decl.kind with
  | .unitKind => .cenumUnit typeName variantIndex decl.name
  | .tupleKind arity => .cenumSeq typeName variantIndex decl.name (some arity)
  | .structKind names => .cenumMap typeName variantIndex decl.name (some names.length)

/-- The runtime payload fits the declared variant shape. -/
def payloadMatches : VariantKind → EnumPayload → Bool
  | .unitKind, .unitPayload => true
  | .tupleKind _, .tuplePayload _ => true
  | .structKind _, .structPayload _ => true
  | _, _ => false

/-- A plan for witnesses: fail the call made when the trace already holds
two calls, with error code 42. -/
def planFailThird : Plan Nat := fun t _ => if t.length == 2 then some 42 else none

/-! Soundness of a run against the instrumented encoder: the trace only ever
grows by calls the plan accepted, and a failing run ends exactly at the one
call the plan rejected, returning that injected error unchanged. -/

/-- `okSeg plan base seg` holds when, starting from history `base`, the plan
accepts every call of `seg` in order. -/
def okSeg {ε : Type} (plan : Plan ε) : List Call → List Call → Bool
  | _, [] => true
  | base, c :: rest => (plan base c).isNone && okSeg plan (base ++ [c]) rest

/-- Soundness of one run: on success the trace grew by an accepted segment;
on an encoder error the trace grew by an accepted segment followed by the
single failing call, and the returned error is exactly the one the plan
injected there; a panic (which only a bad path value can cause, witnessed by
`Bad`) also leaves only accepted calls behind. -/
def SoundRun {ε : Type} (plan : Plan ε) (t : List Call) (Bad : Prop) : Step ε Unit → Prop
  | (.ok _, t2) => ∃ seg, t2 = t ++ seg ∧ okSeg plan t seg = true
  | (.error (.enc e), t2) =>
      ∃ seg c, t2 = t ++ seg ++ [c] ∧ okSeg plan t seg = true ∧ plan (t ++ seg) c = some e
  | (.error .panicked, t2) => Bad ∧ ∃ seg, t2 = t ++ seg ∧ okSeg plan t seg = true

theorem okSeg_append {ε : Type} (plan : Plan ε) (s1 : List Call) :
    ∀ base s2, okSeg plan base s1 = true → okSeg plan (base ++ s1) s2 = true →
      okSeg plan base (s1 ++ s2) = true := by
  induction s1 with
  | nil => intro base s2 _ h2; simpa using h2
  | cons c rest ih =>
    intro base s2 h1 h2
    simp only [okSeg, Bool.and_eq_true] at h1 ⊢
    refine ⟨h1.1, ih (base ++ [c]) s2 h1.2 ?_⟩
    simpa [List.append_assoc] using h2

theorem SoundRun.mono {ε : Type} {plan : Plan ε} {t : List Call} {B1 B2 : Prop}
    {r : Step ε Unit} (h : SoundRun plan t B1 r) (imp : B1 → B2) :
    SoundRun plan t B2 r := by
  obtain ⟨res, t2⟩ := r
  match res with
  | .ok u => exact h
  | .error (.enc e) => exact h
  | .error .panicked => exact ⟨imp h.1, h.2⟩

theorem SoundRun.rebase {ε : Type} {plan : Plan ε} {t seg1 : List Call} {B : Prop}
    {r : Step ε Unit} (h : SoundRun plan (t ++ seg1) B r)
    (hseg : okSeg plan t seg1 = true) : SoundRun plan t B r := by
  obtain ⟨res, t2⟩ := r
  match res with
  | .ok u =>
    obtain ⟨seg, h2, hok⟩ := h
    exact ⟨seg1 ++ seg, by simp [h2, List.append_assoc], okSeg_append plan seg1 t seg hseg hok⟩
  | .error (.enc e) =>
    obtain ⟨seg, c, h2, hok, hfail⟩ := h
    refine ⟨seg1 ++ seg, c, by simp [h2, List.append_assoc], okSeg_append plan seg1 t seg hseg hok, ?_⟩
    simpa [List.append_assoc] using hfail
  | .error .panicked =>
    obtain ⟨hb, seg, h2, hok⟩ := h
    exact ⟨hb, seg1 ++ seg, by simp [h2, List.append_assoc], okSeg_append plan seg1 t seg hseg hok⟩

theorem soundRun_emit {ε : Type} {plan : Plan ε} {t : List Call} {B : Prop} {c : Call} :
    SoundRun plan t B (emit plan c t) := by
  unfold emit
  cases hp : plan t c with
  | some e => exact ⟨[], c, by simp, rfl, by simpa using hp⟩
  | none => exact ⟨[c], rfl, by simp [okSeg, hp]⟩

theorem sound_bind {ε : Type} {plan : Plan ε} {t : List Call} {B : Prop}
    {r : Step ε Unit} {k : List Call → Step ε Unit}
    (h1 : SoundRun plan t B r) (h2 : ∀ t1, SoundRun plan t1 B (k t1)) :
    SoundRun plan t B (tryStep r k) := by
  obtain ⟨res, t1⟩ := r
  match res with
  | .ok u =>
    obtain ⟨seg, ht1, hok⟩ := h1
    exact SoundRun.rebase (ht1 ▸ h2 t1) hok
  | .error (.enc e) => exact h1
  | .error .panicked => exact h1

theorem sound_emit_then {ε : Type} {plan : Plan ε} {t : List Call} {B : Prop}
    {c : Call} {k : List Call → Step ε Unit}
    (hk : ∀ t1, SoundRun plan t1 B (k t1)) :
    SoundRun plan t B (tryStep (emit plan c t) k) :=
  sound_bind soundRun_emit hk

theorem soundRun_ok_nil {ε : Type} {plan : Plan ε} {t : List Call} {B : Prop} :
    SoundRun plan t B ((.ok (), t) : Step ε Unit) :=
  ⟨[], by simp, rfl⟩

theorem sound_serKeySeqElts {ε : Type} (plan : Plan ε) (keys : List Int) (t : List Call)
    {B : Prop} : SoundRun plan t B (serKeySeqElts plan keys t) := by
  induction keys generalizing t with
  | nil => exact soundRun_ok_nil
  | cons k rest ih =>
    simp only [serKeySeqElts]
    exact sound_emit_then fun t1 => sound_emit_then fun t2 => ih t2

mutual

theorem sound_serialize {ε : Type} (plan : Plan ε) (v : RValue) (t : List Call) :
    SoundRun plan t (hasBadPath v = true) (serialize plan v t) := by
  cases v with
  | vbool b => exact soundRun_emit
  | visize n => exact soundRun_emit
  | vi8 n => exact soundRun_emit
  | vi16 n => exact soundRun_emit
  | vi32 n => exact soundRun_emit
  | vi64 n => exact soundRun_emit
  | vusize n => exact soundRun_emit
  | vu8 n => exact soundRun_emit
  | vu16 n => exact soundRun_emit
  | vu32 n => exact soundRun_emit
  | vu64 n => exact soundRun_emit
  | vf32 bits => exact soundRun_emit
  | vf64 bits => exact soundRun_emit
  | vchar c => exact soundRun_emit
  | vstr s => exact soundRun_emit
  | vstring s => exact soundRun_emit
  | vunit => exact soundRun_emit
  | voption o =>
    cases o with
    | none => exact soundRun_emit
    | some v =>
      simp only [serialize]
      exact sound_emit_then fun t1 =>
        (sound_serialize plan v t1).mono (fun h => by simpa [hasBadPath] using h)
  | vslice l =>
    simp only [serialize]
    exact sound_emit_then fun t1 =>
      (sound_serSeqElts plan l t1).mono (fun h => by simpa [hasBadPath] using h)
  | varray n l =>
    simp only [serialize]
    exact sound_emit_then fun t1 =>
      (sound_serSeqElts plan l t1).mono (fun h => by simpa [hasBadPath] using h)
  | vvec l =>
    simp only [serialize]
    exact sound_emit_then fun t1 =>
      (sound_serSeqElts plan l t1).mono (fun h => by simpa [hasBadPath] using h)
  | vbtreeSet keys =>
    simp only [serialize]
    exact sound_emit_then fun t1 => sound_serKeySeqElts plan keys t1
  | vhashSet l =>
    simp only [serialize]
    exact sound_emit_then fun t1 =>
      (sound_serSeqElts plan l t1).mono (fun h => by simpa [hasBadPath] using h)
  | vtuple l =>
    simp only [serialize]
    exact sound_emit_then fun t1 =>
      (sound_serSeqElts plan l t1).mono (fun h => by simpa [hasBadPath] using h)
  | vbtreeMap entries =>
    simp only [serialize]
    exact sound_emit_then fun t1 =>
      (sound_serKeyMapElts plan entries t1).mono (fun h => by simpa [hasBadPath] using h)
  | vhashMap entries =>
    simp only [serialize]
    exact sound_emit_then fun t1 =>
      (sound_serMapElts plan entries t1).mono (fun h => by simpa [hasBadPath] using h)
  | vrefShared v =>
    simp only [serialize]
    exact (sound_serialize plan v t).mono (fun h => by simpa [hasBadPath] using h)
  | vrefMut v =>
    simp only [serialize]
    exact (sound_serialize plan v t).mono (fun h => by simpa [hasBadPath] using h)
  | vbox v =>
    simp only [serialize]
    exact (sound_serialize plan v t).mono (fun h => by simpa [hasBadPath] using h)
  | vrc v =>
    simp only [serialize]
    exact (sound_serialize plan v t).mono (fun h => by simpa [hasBadPath] using h)
  | varc v =>
    simp only [serialize]
    exact (sound_serialize plan v t).mono (fun h => by simpa [hasBadPath] using h)
  | vpath toStr =>
    cases toStr with
    | some s => exact soundRun_emit
    | none => exact ⟨rfl, [], by simp, rfl⟩
  | vpathBuf toStr =>
    cases toStr with
    | some s => exact soundRun_emit
    | none => exact ⟨rfl, [], by simp, rfl⟩
  | vstructUnit typeName => exact soundRun_emit
  | vstructTuple typeName fields =>
    simp only [serialize]
    exact sound_emit_then fun t1 =>
      (sound_serGenTupleElts plan fields t1).mono (fun h => by simpa [hasBadPath] using h)
  | vstructMap typeName fields =>
    simp only [serialize]
    exact sound_emit_then fun t1 =>
      (sound_serGenMapElts plan fields t1).mono (fun h => by simpa [hasBadPath] using h)
  | venumUnit typeName idx variantName => exact soundRun_emit
  | venumSeq typeName idx variantName payload =>
    simp only [serialize]
    exact sound_emit_then fun t1 =>
      (sound_serGenTupleElts plan payload t1).mono (fun h => by simpa [hasBadPath] using h)
  | venumMap typeName idx variantName fields =>
    simp only [serialize]
    exact sound_emit_then fun t1 =>
      (sound_serGenMapElts plan fields t1).mono (fun h => by simpa [hasBadPath] using h)
termination_by sizeOf v

theorem sound_serSeqElts {ε : Type} (plan : Plan ε) (l : List RValue) (t : List Call) :
    SoundRun plan t (hasBadPathList l = true) (serSeqElts plan l t) := by
  cases l with
  | nil => exact soundRun_ok_nil
  | cons v rest =>
    simp only [serSeqElts]
    refine sound_emit_then fun t1 => sound_bind ?_ ?_
    · exact (sound_serialize plan v t1).mono (fun h => by simp [hasBadPathList, h])
    · exact fun t2 =>
        (sound_serSeqElts plan rest t2).mono (fun h => by simp [hasBadPathList, h])
termination_by sizeOf l

theorem sound_serMapElts {ε : Type} (plan : Plan ε) (l : List (RValue × RValue))
    (t : List Call) : SoundRun plan t (hasBadPathPairList l = true) (serMapElts plan l t) := by
  cases l with
  | nil => exact soundRun_ok_nil
  | cons p rest =>
    obtain ⟨k, v⟩ := p
    simp only [serMapElts]
    refine sound_emit_then fun t1 => sound_bind ?_ fun t2 => sound_bind ?_ ?_
    · exact (sound_serialize plan k t1).mono (fun h => by simp [hasBadPathPairList, h])
    · exact (sound_serialize plan v t2).mono (fun h => by simp [hasBadPathPairList, h])
    · exact fun t3 =>
        (sound_serMapElts plan rest t3).mono (fun h => by simp [hasBadPathPairList, h])
termination_by sizeOf l

theorem sound_serKeyMapElts {ε : Type} (plan : Plan ε) (l : List (Int × RValue))
    (t : List Call) : SoundRun plan t (hasBadPathKeyList l = true) (serKeyMapElts plan l t) := by
  cases l with
  | nil => exact soundRun_ok_nil
  | cons p rest =>
    obtain ⟨k, v⟩ := p
    simp only [serKeyMapElts]
    refine sound_emit_then fun t1 => sound_emit_then fun t2 => sound_bind ?_ ?_
    · exact (sound_serialize plan v t2).mono (fun h => by simp [hasBadPathKeyList, h])
    · exact fun t3 =>
        (sound_serKeyMapElts plan rest t3).mono (fun h => by simp [hasBadPathKeyList, h])
termination_by sizeOf l

theorem sound_serGenTupleElts {ε : Type} (plan : Plan ε) (l : List RValue) (t : List Call) :
    SoundRun plan t (hasBadPathList l = true) (serGenTupleElts plan l t) := by
  cases l with
  | nil => exact soundRun_ok_nil
  | cons v rest =>
    simp only [serGenTupleElts]
    refine sound_emit_then fun t1 => sound_bind ?_ ?_
    · exact (sound_serialize plan v t1).mono (fun h => by simp [hasBadPathList, h])
    · exact fun t2 =>
        (sound_serGenTupleElts plan rest t2).mono (fun h => by simp [hasBadPathList, h])
termination_by sizeOf l

theorem sound_serGenMapElts {ε : Type} (plan : Plan ε) (l : List (String × RValue))
    (t : List Call) : SoundRun plan t (hasBadPathNamedList l = true) (serGenMapElts plan l t) := by
  cases l with
  | nil => exact soundRun_ok_nil
  | cons p rest =>
    obtain ⟨name, v⟩ := p
    simp only [serGenMapElts]
    refine sound_emit_then fun t1 => sound_bind ?_ ?_
    · exact (sound_serialize plan v t1).mono (fun h => by simp [hasBadPathNamedList, h])
    · exact fun t2 =>
        (sound_serGenMapElts plan rest t2).mono (fun h => by simp [hasBadPathNamedList, h])
termination_by sizeOf l

end

theorem emit_trace {ε : Type} {plan : Plan ε} {c : Call} {t : List Call} :
    (emit plan c t).2 = t ++ [c] := by
  cases hp : plan t c <;> simp [emit, hp]

/-- C1: for every `Serialize` implementation (primitive adapters,
iterator-driven sequence and map visitors, tuple visitors, and generated
struct/enum visitors), if a nested encoder call returns a failure then the
whole `serialize` call returns that same failure value unchanged, and the
trace ends exactly at the failing call: every call before it was accepted by
the encoder, the failing call is the last one made, and the error returned
is precisely the one the encoder injected there. -/
theorem serialize_fail_propagation {ε : Type} (plan : Plan ε) (v : RValue)
    (t t2 : List Call) (e : ε)
    (h : serialize plan v t = (.error (.enc e), t2)) :
    ∃ seg c, t2 = t ++ seg ++ [c] ∧ okSeg plan t seg = true ∧ plan (t ++ seg) c = some e := by
  have hs := sound_serialize plan v t
  rw [h] at hs
  exact hs

theorem serialize_fail_propagation_witness :
    ∃ seg c, [Call.cseq (some 2), Call.cseqElt, Call.cbool true] = [] ++ seg ++ [c] ∧
      okSeg planFailThird [] seg = true ∧ planFailThird ([] ++ seg) c = some 42 :=
  serialize_fail_propagation planFailThird (.vslice [.vbool true, .vi8 3]) []
    [Call.cseq (some 2), Call.cseqElt, Call.cbool true] 42 (by decide)

/-- C2 is refuted at a concrete input: serializing a `Path` whose bytes are
not valid UTF-8 (`to_str()` is `None`, e.g. the Unix path consisting of the
single byte 0xFF) panics through `unwrap()`, so a failure other than an
encoder-propagated error is reachable even though the encoder (the benign
plan) never fails. -/
theorem path_serialize_panics :
    @serialize Nat planOk (.vpath none) [] = (.error .panicked, []) ∧
      (∀ e : Nat, (@serialize Nat planOk (.vpath none) []).1 ≠ .error (.enc e)) ∧
      (@serialize Nat planOk (.vpath none) []).1 ≠ .ok () := by
  refine ⟨rfl, fun e => ?_, by decide⟩
  rw [show (@serialize Nat planOk (.vpath none) []).1 = .error .panicked from rfl]
  simp

/-- C2 (amended): for every value that contains no non-UTF-8 `Path` /
`PathBuf` (in particular for every path value whose contents are valid
UTF-8), a `serialize` call either succeeds or returns an encoder-propagated
failure; no panic is reachable.  Serializing a non-UTF-8 path value,
however, panics via `unwrap()`. -/
theorem serialize_no_panic {ε : Type} (plan : Plan ε) (v : RValue) (t : List Call)
    (h : hasBadPath v = false) :
    (serialize plan v t).1 = .ok () ∨ ∃ e, (serialize plan v t).1 = .error (.enc e) := by
  have hs := sound_serialize plan v t
  rcases hr : serialize plan v t with ⟨res, t2⟩
  rw [hr] at hs
  cases res with
  | ok u => exact Or.inl rfl
  | error f =>
    cases f with
    | enc e => exact Or.inr ⟨e, rfl⟩
    | panicked => exact absurd h (by simp [hs.1])

theorem serialize_no_panic_witness :
    (@serialize Nat planOk (.vslice [.vbool true, .vpath (some "a")]) []).1 = .ok () ∨
      ∃ e, (@serialize Nat planOk (.vslice [.vbool true, .vpath (some "a")]) []).1 =
        .error (.enc e) :=
  serialize_no_panic planOk (.vslice [.vbool true, .vpath (some "a")]) [] (by decide)

/-- C5: for every primitive scalar value (bool, each fixed-width and
pointer-sized integer, f32, f64, char) and for string values, one serialize
call is exactly one encoder entry-point invocation — the one corresponding
to that primitive kind, carrying exactly the value — and the trace grows by
exactly that one event. -/
theorem primitive_exactly_one_event {ε : Type} (plan : Plan ε) (v : RValue) (c : Call)
    (t : List Call) (h : primCall v = some c) :
    serialize plan v t = emit plan c t ∧ (serialize plan v t).2 = t ++ [c] := by
  cases v <;> simp [primCall] at h <;> subst h <;> exact ⟨rfl, emit_trace⟩

theorem primitive_exactly_one_event_witness :
    @serialize Nat planOk (.vbool false) [] = emit planOk (.cbool false) [] ∧
      (@serialize Nat planOk (.vbool false) []).2 = [] ++ [Call.cbool false] :=
  primitive_exactly_one_event planOk (.vbool false) (.cbool false) [] (by decide)

/-- C3: exhaustion is terminal for every visitor: once a `visit` call on any
of the five visitor kinds (the iterator-backed sequence and map visitors,
the fixed-arity tuple visitors, the generated tuple-struct/variant visitors
and the generated struct/variant map visitors) answers the no-more-elements
result `Ok(None)`, every subsequent `visit` call on the visitor state it
returned answers `Ok(None)` as well (under any encoder and any trace), and
leaves the visitor state and the trace unchanged. -/
theorem visitor_exhaustion_terminal {ε ε2 : Type} (plan : Plan ε) :
    (∀ (sv sv2 : SeqIteratorVisitor) (t t2 : List Call),
      SeqIteratorVisitor.visit plan sv t = (.ok none, sv2, t2) →
      ∀ (plan2 : Plan ε2) (t3 : List Call),
        SeqIteratorVisitor.visit plan2 sv2 t3 = (.ok none, sv2, t3)) ∧
    (∀ (mv mv2 : MapIteratorVisitor) (t t2 : List Call),
      MapIteratorVisitor.visit plan mv t = (.ok none, mv2, t2) →
      ∀ (plan2 : Plan ε2) (t3 : List Call),
        MapIteratorVisitor.visit plan2 mv2 t3 = (.ok none, mv2, t3)) ∧
    (∀ (tv tv2 : TupleVisitor) (t t2 : List Call),
      TupleVisitor.visit plan tv t = (.ok none, tv2, t2) →
      ∀ (plan2 : Plan ε2) (t3 : List Call),
        TupleVisitor.visit plan2 tv2 t3 = (.ok none, tv2, t3)) ∧
    (∀ (gv gv2 : GenTupleVisitor) (t t2 : List Call),
      GenTupleVisitor.visit plan gv t = (.ok none, gv2, t2) →
      ∀ (plan2 : Plan ε2) (t3 : List Call),
        GenTupleVisitor.visit plan2 gv2 t3 = (.ok none, gv2, t3)) ∧
    (∀ (gm gm2 : GenMapVisitor) (t t2 : List Call),
      GenMapVisitor.visit plan gm t = (.ok none, gm2, t2) →
      ∀ (plan2 : Plan ε2) (t3 : List Call),
        GenMapVisitor.visit plan2 gm2 t3 = (.ok none, gm2, t3)) := by
  refine ⟨?_, ?_, ?_, ?_, ?_⟩
  · intro sv sv2 t t2 h plan2 t3
    obtain ⟨iter, len⟩ := sv
    cases iter with
    | nil =>
      simp [SeqIteratorVisitor.visit] at h
      obtain ⟨h1, h2⟩ := h
      subst h1
      rfl
    | cons value rest =>
      rcases he : visit_seq_elt plan value t with ⟨res, t1⟩
      cases res <;> simp [SeqIteratorVisitor.visit, he] at h
  · intro mv mv2 t t2 h plan2 t3
    obtain ⟨iter, len⟩ := mv
    cases iter with
    | nil =>
      simp [MapIteratorVisitor.visit] at h
      obtain ⟨h1, h2⟩ := h
      subst h1
      rfl
    | cons pair rest =>
      rcases he : visit_map_elt plan pair.1 pair.2 t with ⟨res, t1⟩
      cases res <;> simp [MapIteratorVisitor.visit, he] at h
  · intro tv tv2 t t2 h plan2 t3
    obtain ⟨tuple, state⟩ := tv
    rcases hs : tuple[state]? with _ | slot
    · simp [TupleVisitor.visit, hs] at h
      obtain ⟨h1, h2⟩ := h
      subst h1
      simp [TupleVisitor.visit, hs]
    · rcases he : visit_seq_elt plan slot t with ⟨res, t1⟩
      cases res <;> simp [TupleVisitor.visit, hs, he] at h
  · intro gv gv2 t t2 h plan2 t3
    obtain ⟨value, state⟩ := gv
    rcases hs : value[state]? with _ | field
    · simp [GenTupleVisitor.visit, hs] at h
      obtain ⟨h1, h2⟩ := h
      subst h1
      simp [GenTupleVisitor.visit, hs]
    · rcases he : visit_tuple_elt plan field t with ⟨res, t1⟩
      cases res <;> simp [GenTupleVisitor.visit, hs, he] at h
  · intro gm gm2 t t2 h plan2 t3
    obtain ⟨value, state⟩ := gm
    rcases hs : value[state]? with _ | field
    · simp [GenMapVisitor.visit, hs] at h
      obtain ⟨h1, h2⟩ := h
      subst h1
      simp [GenMapVisitor.visit, hs]
    · rcases he : visit_named_map_elt plan field.1 field.2 t with ⟨res, t1⟩
      cases res <;> simp [GenMapVisitor.visit, hs, he] at h

theorem visitor_exhaustion_terminal_witness :
    @SeqIteratorVisitor.visit Nat planOk ⟨[], some 2⟩ [Call.cunit] =
        (.ok none, ⟨[], some 2⟩, [Call.cunit]) ∧
      @TupleVisitor.visit Nat planOk ⟨[.vbool true], 1⟩ [] =
        (.ok none, ⟨[.vbool true], 1⟩, []) :=
  ⟨(@visitor_exhaustion_terminal Nat Nat planOk).1 ⟨[], some 2⟩ ⟨[], some 2⟩ [] [] rfl
      planOk [Call.cunit],
    (@visitor_exhaustion_terminal Nat Nat planOk).2.2.1 ⟨[.vbool true], 1⟩ ⟨[.vbool true], 1⟩
      [] [] rfl planOk []⟩

/-- C10: the length hint is immutable across `visit` calls for every one of
the five visitor kinds: the iterator-backed visitors answer the length
captured at construction, and the counter-based visitors answer the
constant arity/field count, before and after any pull, on the success and
on the failure path alike. -/
theorem visitor_len_immutable {ε : Type} (plan : Plan ε) :
    (∀ (sv : SeqIteratorVisitor) (t : List Call),
      ((SeqIteratorVisitor.visit plan sv t).2.1).lenHint = sv.lenHint) ∧
    (∀ (mv : MapIteratorVisitor) (t : List Call),
      ((MapIteratorVisitor.visit plan mv t).2.1).lenHint = mv.lenHint) ∧
    (∀ (tv : TupleVisitor) (t : List Call),
      ((TupleVisitor.visit plan tv t).2.1).lenHint = tv.lenHint) ∧
    (∀ (gv : GenTupleVisitor) (t : List Call),
      ((GenTupleVisitor.visit plan gv t).2.1).lenHint = gv.lenHint) ∧
    (∀ (gm : GenMapVisitor) (t : List Call),
      ((GenMapVisitor.visit plan gm t).2.1).lenHint = gm.lenHint) := by
  refine ⟨?_, ?_, ?_, ?_, ?_⟩
  · intro sv t
    obtain ⟨iter, len⟩ := sv
    cases iter with
    | nil => rfl
    | cons value rest =>
      rcases he : visit_seq_elt plan value t with ⟨res, t1⟩
      cases res <;> simp [SeqIteratorVisitor.visit, SeqIteratorVisitor.lenHint, he]
  · intro mv t
    obtain ⟨iter, len⟩ := mv
    cases iter with
    | nil => rfl
    | cons pair rest =>
      rcases he : visit_map_elt plan pair.1 pair.2 t with ⟨res, t1⟩
      cases res <;> simp [MapIteratorVisitor.visit, MapIteratorVisitor.lenHint, he]
  · intro tv t
    obtain ⟨tuple, state⟩ := tv
    rcases hs : tuple[state]? with _ | slot
    · simp [TupleVisitor.visit, hs]
    · rcases he : visit_seq_elt plan slot t with ⟨res, t1⟩
      cases res <;> simp [TupleVisitor.visit, TupleVisitor.lenHint, hs, he]
  · intro gv t
    obtain ⟨value, state⟩ := gv
    rcases hs : value[state]? with _ | field
    · simp [GenTupleVisitor.visit, hs]
    · rcases he : visit_tuple_elt plan field t with ⟨res, t1⟩
      cases res <;> simp [GenTupleVisitor.visit, GenTupleVisitor.lenHint, hs, he]
  · intro gm t
    obtain ⟨value, state⟩ := gm
    rcases hs : value[state]? with _ | field
    · simp [GenMapVisitor.visit, hs]
    · rcases he : visit_named_map_elt plan field.1 field.2 t with ⟨res, t1⟩
      cases res <;> simp [GenMapVisitor.visit, GenMapVisitor.lenHint, hs, he]

/-- C8: wrapping a value in any ownership-transparent adapter (shared
reference, mutable reference, `Box`, `Rc`, `Arc`) and serializing the
wrapper produces exactly the same encoder-call sequence and the same result
as serializing the unwrapped value directly. -/
theorem wrapper_transparent {ε : Type} (plan : Plan ε) (v : RValue) (t : List Call) :
    serialize plan (.vrefShared v) t = serialize plan v t ∧
    serialize plan (.vrefMut v) t = serialize plan v t ∧
    serialize plan (.vbox v) t = serialize plan v t ∧
    serialize plan (.vrc v) t = serialize plan v t ∧
    serialize plan (.varc v) t = serialize plan v t :=
  ⟨rfl, rfl, rfl, rfl, rfl⟩

theorem namedFieldNames_isEmpty (fields : List FieldDecl) :
    (namedFieldNames fields).isEmpty = !hasNamedField fields := by
  induction fields with
  | nil => rfl
  | cons f rest ih =>
    cases f with
    | named name => simp [namedFieldNames, hasNamedField]
    | unnamed => simpa [namedFieldNames, hasNamedField] using ih

theorem unnamedFieldCount_eq_zero (fields : List FieldDecl) :
    (unnamedFieldCount fields == 0) = !hasUnnamedField fields := by
  induction fields with
  | nil => rfl
  | cons f rest ih =>
    cases f with
    | named name => simpa [unnamedFieldCount, hasUnnamedField] using ih
    | unnamed => simp [unnamedFieldCount, hasUnnamedField]

/-- C9: a struct declaration with both named and unnamed fields fails once
at code-generation time (the `cx.bug` construction-time error), before any
serialization traversal exists, so no generated code and no partial output
can ever be produced for such a type; the three well-formed shapes dispatch
to the named-unit, tuple-seq and named-map paths respectively. -/
theorem struct_codegen_dispatch (fields : List FieldDecl) :
    (hasNamedField fields = true → hasUnnamedField fields = true →
      serialize_item_struct fields = .error "struct has named and unnamed fields" ∧
      ∀ code, serialize_item_struct fields ≠ .ok code) ∧
    (hasNamedField fields = false → hasUnnamedField fields = false →
      serialize_item_struct fields = .ok .unitStruct) ∧
    (hasNamedField fields = false → hasUnnamedField fields = true →
      serialize_item_struct fields = .ok (.tupleStruct (unnamedFieldCount fields))) ∧
    (hasNamedField fields = true → hasUnnamedField fields = false →
      serialize_item_struct fields = .ok (.mapStruct (namedFieldNames fields))) := by
  have hA := namedFieldNames_isEmpty fields
  have hB := unnamedFieldCount_eq_zero fields
  refine ⟨fun h1 h2 => ?_, fun h1 h2 => ?_, fun h1 h2 => ?_, fun h1 h2 => ?_⟩ <;>
    simp [serialize_item_struct, hA, hB, h1, h2]

theorem struct_codegen_dispatch_witness :
    serialize_item_struct [.named "x", .unnamed] =
        .error "struct has named and unnamed fields" ∧
      serialize_item_struct [.named "x", .named "y"] =
        .ok (.mapStruct (namedFieldNames [.named "x", .named "y"])) :=
  ⟨((struct_codegen_dispatch [.named "x", .unnamed]).1 (by decide) (by decide)).1,
    (struct_codegen_dispatch [.named "x", .named "y"]).2.2.2 (by decide) (by decide)⟩

theorem soundRun_extends {ε : Type} {plan : Plan ε} {t : List Call} {B : Prop}
    {r : Step ε Unit} (h : SoundRun plan t B r) : ∃ rest, r.2 = t ++ rest := by
  obtain ⟨res, t2⟩ := r
  match res with
  | .ok u =>
    obtain ⟨seg, h2, _⟩ := h
    exact ⟨seg, h2⟩
  | .error (.enc e) =>
    obtain ⟨seg, c, h2, _, _⟩ := h
    exact ⟨seg ++ [c], by simp [h2, List.append_assoc]⟩
  | .error .panicked =>
    obtain ⟨_, seg, h2, _⟩ := h
    exact ⟨seg, h2⟩

theorem tryStep_emit_head {ε : Type} {plan : Plan ε} {c : Call} {t : List Call}
    {k : List Call → Step ε Unit} (hk : ∀ t1, ∃ rest, (k t1).2 = t1 ++ rest) :
    ∃ rest, (tryStep (emit plan c t) k).2 = t ++ c :: rest := by
  have ht1 : (emit plan c t).2 = t ++ [c] := emit_trace
  rcases hem : emit plan c t with ⟨res, t1⟩
  rw [hem] at ht1
  simp only [] at ht1
  cases res with
  | error f => exact ⟨[], by simp [tryStep, hem, ht1]⟩
  | ok u =>
    obtain ⟨rest, hrest⟩ := hk t1
    subst ht1
    exact ⟨rest, by simp [tryStep, hem, hrest]⟩

/-- C7: for every enum declaration and every variant position `j` inside it,
the generated dispatch (whose arms come from `enumerate()`) passes exactly
`j` — the variant's zero-based ordinal in the declaration — as the variant
index, together with the type name and that variant's name, to the matching
enum entry point (unit, tuple-payload or struct-payload), for every value of
that variant: the first encoder call of the run is the corresponding enum
event carrying index `j`. -/
theorem enum_variant_index_is_ordinal {ε : Type} (plan : Plan ε) (typeName : String)
    (variants : List VariantDecl) (j : Nat) (payload : EnumPayload) (t : List Call)
    (hj : j < variants.length)
    (hmatch : payloadMatches variants[j].kind payload = true) :
    ∃ rest, (runEnumSerialize plan typeName variants j payload t).2 =
      t ++ enumHeadCall typeName j variants[j] :: rest := by
  have harm : (variants.enum)[j]? = some (j, variants[j]) := by
    rw [List.getElem?_enum]
    simp [List.getElem?_eq_getElem hj]
  simp only [runEnumSerialize, harm]
  cases hk : variants[j].kind with
  | unitKind =>
    cases payload with
    | unitPayload =>
      refine ⟨[], ?_⟩
      simp [runVariantArm, hk, enumHeadCall, emit_trace]
    | tuplePayload vals => simp [payloadMatches, hk] at hmatch
    | structPayload vals => simp [payloadMatches, hk] at hmatch
  | tupleKind arity =>
    cases payload with
    | unitPayload => simp [payloadMatches, hk] at hmatch
    | tuplePayload vals =>
      simp only [runVariantArm, hk, enumHeadCall]
      exact tryStep_emit_head fun t1 =>
        soundRun_extends (sound_serGenTupleElts plan vals t1)
    | structPayload vals => simp [payloadMatches, hk] at hmatch
  | structKind names =>
    cases payload with
    | unitPayload => simp [payloadMatches, hk] at hmatch
    | tuplePayload vals => simp [payloadMatches, hk] at hmatch
    | structPayload vals =>
      simp only [runVariantArm, hk, enumHeadCall]
      exact tryStep_emit_head fun t1 =>
        soundRun_extends (sound_serGenMapElts plan (names.zip vals) t1)

theorem serialize_planOk_ok {ε : Type} (v : RValue) (h : hasBadPath v = false)
    (t : List Call) : ∃ seg, @serialize ε planOk v t = (.ok (), t ++ seg) := by
  have hs := @sound_serialize ε planOk v t
  rcases hr : serialize planOk v t with ⟨res, t2⟩
  rw [hr] at hs
  cases res with
  | ok u =>
    cases u
    obtain ⟨seg, h2, _⟩ := hs
    exact ⟨seg, by rw [h2]⟩
  | error f =>
    cases f with
    | enc e =>
      obtain ⟨seg, c, _, _, hfail⟩ := hs
      simp [planOk] at hfail
    | panicked => simp [hs.1] at h

theorem serKeySeqElts_planOk {ε : Type} (keys : List Int) : ∀ t : List Call,
    @serKeySeqElts ε planOk keys t =
      (.ok (), t ++ List.flatMap keys (fun k => [Call.cseqElt, Call.ci64 k])) := by
  induction keys with
  | nil => intro t; simp [serKeySeqElts]
  | cons k rest ih =>
    intro t
    simp [serKeySeqElts, tryStep, emit, planOk, ih]

theorem serKeyMapElts_planOk {ε : Type} (entries : List (Int × RValue)) :
    ∀ t : List Call, hasBadPathKeyList entries = false →
      ∃ segs : List (List Call), segs.length = entries.length ∧
        @serKeyMapElts ε planOk entries t =
          (.ok (), t ++ List.flatMap (entries.zip segs)
            (fun p => Call.cmapElt :: Call.ci64 p.1.1 :: p.2)) := by
  induction entries with
  | nil => intro t _; exact ⟨[], rfl, by simp [serKeyMapElts]⟩
  | cons p rest ih =>
    obtain ⟨kk, v⟩ := p
    intro t hsafe
    have hsafe2 : hasBadPath v = false ∧ hasBadPathKeyList rest = false := by
      simpa [hasBadPathKeyList] using hsafe
    obtain ⟨seg, hseg⟩ :=
      serialize_planOk_ok v hsafe2.1 (t ++ [Call.cmapElt] ++ [Call.ci64 kk])
    obtain ⟨segs, hlen, hrest⟩ :=
      ih (t ++ [Call.cmapElt] ++ [Call.ci64 kk] ++ seg) hsafe2.2
    refine ⟨seg :: segs, by simp [hlen], ?_⟩
    simp only [serKeyMapElts]
    rw [show emit planOk Call.cmapElt t = (.ok (), t ++ [Call.cmapElt]) from rfl]
    simp only [tryStep]
    rw [show emit planOk (Call.ci64 kk) (t ++ [Call.cmapElt])
        = (.ok (), t ++ [Call.cmapElt] ++ [Call.ci64 kk]) from rfl]
    simp only [tryStep]
    rw [hseg]
    simp only [tryStep]
    rw [hrest]
    simp

theorem iterate_exhausted {ε : Type} (hint : Option Nat) (k : Nat) (t : List Call) :
    @iterateSeqVisit ε planOk k ⟨[], hint⟩ t =
      (List.replicate k (.ok none), ⟨[], hint⟩, t) := by
  induction k generalizing t with
  | zero => rfl
  | succ n ih => simp [iterateSeqVisit, SeqIteratorVisitor.visit, ih, List.replicate_succ]

theorem iterate_pulls {ε : Type} (l : List RValue) (hint : Option Nat) :
    ∀ (k : Nat) (t : List Call), hasBadPathList l = false →
      ∃ t2, @iterateSeqVisit ε planOk (l.length + k) ⟨l, hint⟩ t =
        (List.replicate l.length (.ok (some ())) ++ List.replicate k (.ok none),
          ⟨[], hint⟩, t2) := by
  induction l with
  | nil =>
    intro k t _
    exact ⟨t, by simp [iterate_exhausted]⟩
  | cons v rest ih =>
    intro k t hsafe
    have hsafe2 : hasBadPath v = false ∧ hasBadPathList rest = false := by
      simpa [hasBadPathList] using hsafe
    obtain ⟨seg, hseg⟩ := serialize_planOk_ok v hsafe2.1 (t ++ [Call.cseqElt])
    have hv : @SeqIteratorVisitor.visit ε planOk ⟨v :: rest, hint⟩ t =
        (.ok (some ()), ⟨rest, hint⟩, t ++ Call.cseqElt :: seg) := by
      simp only [SeqIteratorVisitor.visit, visit_seq_elt]
      rw [show emit planOk Call.cseqElt t = (.ok (), t ++ [Call.cseqElt]) from rfl]
      simp only [tryStep]
      rw [hseg]
      simp
    obtain ⟨t2, ht2⟩ := ih k (t ++ Call.cseqElt :: seg) hsafe2.2
    refine ⟨t2, ?_⟩
    have hstep : (v :: rest).length + k = (rest.length + k) + 1 := by
      simp [List.length_cons]
      omega
    rw [hstep]
    simp [iterateSeqVisit, hv, ht2, List.replicate_succ]

theorem hasBadPathList_map_vi64 (keys : List Int) :
    hasBadPathList (keys.map RValue.vi64) = false := by
  induction keys with
  | nil => rfl
  | cons k rest ih => simp [hasBadPathList, hasBadPath, ih]

/-- C4: serializing an ordered set visits the elements, and serializing an
ordered map visits the key/value pairs, in the container's iteration order —
which, the representation invariant being a strictly ascending key list, is
strictly ascending key order — each element exactly once: the trace is the
entry event followed by one element segment per element, in list order, and
the key list is sorted and duplicate-free. -/
theorem btree_ascending_order {ε : Type} (keys : List Int) (entries : List (Int × RValue))
    (hkeys : List.Sorted (· < ·) keys)
    (hmkeys : List.Sorted (· < ·) (entries.map Prod.fst))
    (hsafe : hasBadPathKeyList entries = false) (t : List Call) :
    (@serialize ε planOk (.vbtreeSet keys) t =
        (.ok (), t ++ Call.cseq (some keys.length) ::
          List.flatMap keys (fun k => [Call.cseqElt, Call.ci64 k])) ∧
      keys.Nodup) ∧
    (∃ segs : List (List Call), segs.length = entries.length ∧
      @serialize ε planOk (.vbtreeMap entries) t =
        (.ok (), t ++ Call.cmap (some entries.length) ::
          List.flatMap (entries.zip segs)
            (fun p => Call.cmapElt :: Call.ci64 p.1.1 :: p.2)) ∧
      (entries.map Prod.fst).Nodup) := by
  constructor
  · constructor
    · simp [serialize, tryStep, emit, planOk, serKeySeqElts_planOk]
    · exact hkeys.nodup
  · obtain ⟨segs, hlen, heq⟩ :=
      serKeyMapElts_planOk entries (t ++ [Call.cmap (some entries.length)]) hsafe
    refine ⟨segs, hlen, ?_, hmkeys.nodup⟩
    simp only [serialize]
    rw [show emit planOk (Call.cmap (some entries.length)) t
        = (.ok (), t ++ [Call.cmap (some entries.length)]) from rfl]
    simp only [tryStep]
    rw [heq]
    simp

theorem btree_ascending_order_witness :
    (@serialize Nat planOk (.vbtreeSet [1, 2, 3]) [] =
        (.ok (), Call.cseq (some 3) ::
          List.flatMap [1, 2, 3] (fun k => [Call.cseqElt, Call.ci64 k])) ∧
      ([1, 2, 3] : List Int).Nodup) ∧
    (∃ segs : List (List Call), segs.length = 2 ∧
      @serialize Nat planOk (.vbtreeMap [(1, RValue.vbool true), (2, RValue.vunit)]) [] =
        (.ok (), Call.cmap (some 2) ::
          List.flatMap
            (List.zip ([(1, RValue.vbool true), (2, RValue.vunit)] : List (Int × RValue)) segs)
            (fun p => Call.cmapElt :: Call.ci64 p.1.1 :: p.2)) ∧
      (List.map Prod.fst
        ([(1, RValue.vbool true), (2, RValue.vunit)] : List (Int × RValue))).Nodup) :=
  @btree_ascending_order Nat [1, 2, 3] [(1, RValue.vbool true), (2, RValue.vunit)]
    (by decide) (by decide) (by decide) []

/-- C6: for every sequence container (slice, Vec, fixed-size array,
BTreeSet, HashSet), the visitor its `Serialize` impl constructs answers
exactly as many successful pulls as the container has elements before
reporting exhaustion (and keeps reporting exhaustion afterwards), and the
length hint it reports equals that same count — the fixed-size array
visitor always reporting the declared compile-time length. -/
theorem container_pull_count {ε : Type} (l : List RValue) (n : Nat) (keys : List Int)
    (k : Nat) (t : List Call) (hsafe : hasBadPathList l = false)
    (hlen : l.length = n) :
    ((sliceVisitor l).lenHint = some l.length ∧
      ∃ t2, @iterateSeqVisit ε planOk (l.length + k) (sliceVisitor l) t =
        (List.replicate l.length (.ok (some ())) ++ List.replicate k (.ok none),
          ⟨[], some l.length⟩, t2)) ∧
    ((vecVisitor l).lenHint = some l.length ∧
      ∃ t2, @iterateSeqVisit ε planOk (l.length + k) (vecVisitor l) t =
        (List.replicate l.length (.ok (some ())) ++ List.replicate k (.ok none),
          ⟨[], some l.length⟩, t2)) ∧
    ((arrayVisitor n l).lenHint = some n ∧
      ∃ t2, @iterateSeqVisit ε planOk (n + k) (arrayVisitor n l) t =
        (List.replicate n (.ok (some ())) ++ List.replicate k (.ok none),
          ⟨[], some n⟩, t2)) ∧
    ((btreeSetVisitor keys).lenHint = some keys.length ∧
      ∃ t2, @iterateSeqVisit ε planOk (keys.length + k) (btreeSetVisitor keys) t =
        (List.replicate keys.length (.ok (some ())) ++ List.replicate k (.ok none),
          ⟨[], some keys.length⟩, t2)) ∧
    ((hashSetVisitor l).lenHint = some l.length ∧
      ∃ t2, @iterateSeqVisit ε planOk (l.length + k) (hashSetVisitor l) t =
        (List.replicate l.length (.ok (some ())) ++ List.replicate k (.ok none),
          ⟨[], some l.length⟩, t2)) := by
  subst hlen
  have hslice := @iterate_pulls ε l (some l.length) k t hsafe
  have hset := @iterate_pulls ε (keys.map RValue.vi64) (some keys.length) k t
    (hasBadPathList_map_vi64 keys)
  rw [List.length_map] at hset
  exact ⟨⟨rfl, hslice⟩, ⟨rfl, hslice⟩, ⟨rfl, hslice⟩, ⟨rfl, hset⟩, ⟨rfl, hslice⟩⟩

theorem container_pull_count_witness :
    ((sliceVisitor [RValue.vbool true]).lenHint = some 1 ∧
      ∃ t2, @iterateSeqVisit Nat planOk 2 (sliceVisitor [RValue.vbool true]) [] =
        ([.ok (some ()), .ok none], ⟨[], some 1⟩, t2)) ∧
    ((vecVisitor [RValue.vbool true]).lenHint = some 1 ∧
      ∃ t2, @iterateSeqVisit Nat planOk 2 (vecVisitor [RValue.vbool true]) [] =
        ([.ok (some ()), .ok none], ⟨[], some 1⟩, t2)) ∧
    ((arrayVisitor 1 [RValue.vbool true]).lenHint = some 1 ∧
      ∃ t2, @iterateSeqVisit Nat planOk 2 (arrayVisitor 1 [RValue.vbool true]) [] =
        ([.ok (some ()), .ok none], ⟨[], some 1⟩, t2)) ∧
    ((btreeSetVisitor [3]).lenHint = some 1 ∧
      ∃ t2, @iterateSeqVisit Nat planOk 2 (btreeSetVisitor [3]) [] =
        ([.ok (some ()), .ok none], ⟨[], some 1⟩, t2)) ∧
    ((hashSetVisitor [RValue.vbool true]).lenHint = some 1 ∧
      ∃ t2, @iterateSeqVisit Nat planOk 2 (hashSetVisitor [RValue.vbool true]) [] =
        ([.ok (some ()), .ok none], ⟨[], some 1⟩, t2)) :=
  @container_pull_count Nat [RValue.vbool true] 1 [3] 1 [] (by decide) (by decide)

theorem enum_variant_index_is_ordinal_witness :
    ∃ rest, (@runEnumSerialize Nat planOk "E"
        [⟨"Unit", .unitKind⟩, ⟨"Pair", .tupleKind 2⟩] 1
        (.tuplePayload [.vi32 5, .vi32 6]) []).2 =
      [] ++ enumHeadCall "E" 1
        ([⟨"Unit", .unitKind⟩, ⟨"Pair", .tupleKind 2⟩] : List VariantDecl)[1] :: rest :=
  enum_variant_index_is_ordinal planOk "E"
    [⟨"Unit", .unitKind⟩, ⟨"Pair", .tupleKind 2⟩] 1
    (.tuplePayload [.vi32 5, .vi32 6]) [] (by decide) (by decide)

end Serde
